import Mathlib

/-!
# Verification of the chemfiles error boundary and unit-cell core

This file gives a shallow embedding of the error/status boundary
(`src/capi/logging.cpp`, `include/chemharp/Error.hpp`) and of the unit-cell
engine specified in `spec.md` and exercised by `tests/capi/cell.cpp`.

The C API status functions (`chfl_strerror`, `chfl_last_error`,
`chfl_clear_errors`) are translated directly from `src/capi/logging.cpp`.
The unit-cell implementation itself is not part of the sources we have
(only its tests are), so the cell data model and operations are modelled
from the specification, as indicated in the doc comment of each such
definition.
-/

open Real

noncomputable section

/-! ## Scalar rounding

Modelled from the spec: the wrap algorithm rounds each fractional component
"to the nearest integer (ties rounding away from zero)" (spec §4.2), which is
the behaviour of the C library function `round` used by the implementation.
-/

/-- Round to the nearest integer, ties away from zero (C `round`). -/
def roundAway (x : ℝ) : ℤ :=
  if 0 ≤ x then ⌊x + 1/2⌋ else -⌊-x + 1/2⌋

/-- The fractional-space reduction performed by wrap on one coordinate:
subtract the nearest integer (ties away from zero). -/
def reduce (x : ℝ) : ℝ := x - roundAway x

theorem neg_half_le_reduce (x : ℝ) : -(1/2) ≤ reduce x := by
  unfold reduce roundAway
  split
  · have h := Int.floor_le (x + 1/2)
    linarith
  · have h := Int.lt_floor_add_one (-x + 1/2)
    push_cast
    linarith

theorem reduce_le_half (x : ℝ) : reduce x ≤ 1/2 := by
  unfold reduce roundAway
  split
  · have h := Int.lt_floor_add_one (x + 1/2)
    linarith
  · have h := Int.floor_le (-x + 1/2)
    push_cast
    linarith

/-- A real number sitting exactly halfway between two integers: the tie case
of the rounding used by wrap. -/
def IsHalfInt (x : ℝ) : Prop := ∃ k : ℤ, x = k + 1/2

theorem reduce_lt_half (x : ℝ) (hx : ¬ IsHalfInt x) : reduce x < 1/2 := by
  rcases lt_or_le (reduce x) (1/2) with h | h
  · exact h
  · exfalso
    have heq : reduce x = 1/2 := le_antisymm (reduce_le_half x) h
    unfold reduce roundAway at heq
    apply hx
    split at heq
    · exact ⟨⌊x + 1/2⌋, by linarith⟩
    · exact ⟨-⌊-x + 1/2⌋, by push_cast at heq ⊢; linarith⟩

theorem neg_half_lt_reduce (x : ℝ) (hx : ¬ IsHalfInt x) : -(1/2) < reduce x := by
  rcases lt_or_le (-(1/2)) (reduce x) with h | h
  · exact h
  · exfalso
    have heq : reduce x = -(1/2) := le_antisymm h (neg_half_le_reduce x)
    unfold reduce roundAway at heq
    apply hx
    split at heq
    · exact ⟨⌊x + 1/2⌋ - 1, by push_cast at heq ⊢; linarith⟩
    · exact ⟨-⌊-x + 1/2⌋ - 1, by push_cast at heq ⊢; linarith⟩

theorem roundAway_eq_zero (x : ℝ) (h1 : -(1/2) < x) (h2 : x < 1/2) :
    roundAway x = 0 := by
  unfold roundAway
  split
  · rw [Int.floor_eq_iff]
    constructor <;> push_cast <;> linarith
  · have : ⌊-x + 1/2⌋ = 0 := by
      rw [Int.floor_eq_iff]
      constructor <;> push_cast <;> linarith
    omega

theorem reduce_reduce (x : ℝ) (hx : ¬ IsHalfInt x) : reduce (reduce x) = reduce x := by
  have h0 : roundAway (reduce x) = 0 :=
    roundAway_eq_zero _ (neg_half_lt_reduce x hx) (reduce_lt_half x hx)
  rw [show reduce (reduce x) = reduce x - roundAway (reduce x) from rfl, h0]
  simp

/-- Helper for discharging tie-freedom at concrete inputs: a number whose
distance-to-half lies strictly between two consecutive integers is not a tie. -/
theorem not_isHalfInt (x : ℝ) (n : ℤ) (h1 : (n : ℝ) < x - 1/2)
    (h2 : x - 1/2 < n + 1) : ¬ IsHalfInt x := by
  rintro ⟨k, hk⟩
  have hk' : (k : ℝ) = x - 1/2 := by linarith
  have l1 : (n : ℝ) < (k : ℝ) := by linarith
  have l2 : (k : ℝ) < n + 1 := by linarith
  have m1 : n < k := by exact_mod_cast l1
  have m2 : k < n + 1 := by exact_mod_cast l2
  omega

/-- Helper for evaluating `roundAway` at concrete nonnegative inputs. -/
theorem roundAway_eq_of_nonneg (x : ℝ) (n : ℤ) (h0 : 0 ≤ x)
    (h1 : (n : ℝ) ≤ x + 1/2) (h2 : x + 1/2 < n + 1) : roundAway x = n := by
  unfold roundAway
  rw [if_pos h0, Int.floor_eq_iff]
  exact ⟨h1, by linarith⟩

/-- Helper for evaluating `roundAway` at concrete negative inputs. -/
theorem roundAway_eq_of_neg (x : ℝ) (n : ℤ) (h0 : ¬ 0 ≤ x)
    (h1 : ((-n : ℤ) : ℝ) ≤ -x + 1/2) (h2 : -x + 1/2 < (-n : ℤ) + 1) :
    roundAway x = n := by
  unfold roundAway
  rw [if_neg h0]
  have : ⌊-x + 1/2⌋ = -n := by
    rw [Int.floor_eq_iff]
    exact ⟨h1, by push_cast at h2 ⊢; linarith⟩
  rw [this]
  ring

/-! ## Vectors and 3×3 matrices

Modelled from the spec: geometric inputs/outputs are 3-double vectors and a
3×3 double matrix whose rows are the three lattice vectors (spec §3, §6).
-/

/-- A 3-component vector of reals (a `chfl_vector3d`). -/
@[ext]
structure Vec3 where
  x : ℝ
  y : ℝ
  z : ℝ

/-- A 3×3 matrix given by its rows `a`, `b`, `c`: the three lattice vectors
(spec §3: "rows are the three cell vectors"). -/
@[ext]
structure Mat3 where
  a : Vec3
  b : Vec3
  c : Vec3

/-- Euclidean dot product of two 3-vectors. -/
def dot (u v : Vec3) : ℝ := u.x * v.x + u.y * v.y + u.z * v.z

/-- Matrix-vector product (left multiplication of a column vector). -/
def Mat3.mulVec (M : Mat3) (v : Vec3) : Vec3 :=
  ⟨dot M.a v, dot M.b v, dot M.c v⟩

/-- Determinant of a 3×3 matrix: the scalar triple product of the rows
(spec §4.2, "Get volume"). -/
def Mat3.det (M : Mat3) : ℝ :=
  M.a.x * (M.b.y * M.c.z - M.b.z * M.c.y)
  - M.a.y * (M.b.x * M.c.z - M.b.z * M.c.x)
  + M.a.z * (M.b.x * M.c.y - M.b.y * M.c.x)

/-- Inverse of a 3×3 matrix by the adjugate formula (meaningful when the
determinant is nonzero). -/
def Mat3.inv (M : Mat3) : Mat3 :=
  let d := M.det
  ⟨⟨(M.b.y * M.c.z - M.b.z * M.c.y) / d,
    -(M.a.y * M.c.z - M.a.z * M.c.y) / d,
    (M.a.y * M.b.z - M.a.z * M.b.y) / d⟩,
   ⟨-(M.b.x * M.c.z - M.b.z * M.c.x) / d,
    (M.a.x * M.c.z - M.a.z * M.c.x) / d,
    -(M.a.x * M.b.z - M.a.z * M.b.x) / d⟩,
   ⟨(M.b.x * M.c.y - M.b.y * M.c.x) / d,
    -(M.a.x * M.c.y - M.a.y * M.c.x) / d,
    (M.a.x * M.b.y - M.a.y * M.b.x) / d⟩⟩

theorem Mat3.inv_mulVec_mulVec (M : Mat3) (v : Vec3) (hd : M.det ≠ 0) :
    M.inv.mulVec (M.mulVec v) = v := by
  have hdet : M.a.x * (M.b.y * M.c.z - M.b.z * M.c.y)
      - M.a.y * (M.b.x * M.c.z - M.b.z * M.c.x)
      + M.a.z * (M.b.x * M.c.y - M.b.y * M.c.x) ≠ 0 := hd
  ext <;> simp only [Mat3.inv, Mat3.mulVec, Mat3.det, dot] <;>
    field_simp <;> ring

theorem Mat3.mulVec_inv_mulVec (M : Mat3) (v : Vec3) (hd : M.det ≠ 0) :
    M.mulVec (M.inv.mulVec v) = v := by
  have hdet : M.a.x * (M.b.y * M.c.z - M.b.z * M.c.y)
      - M.a.y * (M.b.x * M.c.z - M.b.z * M.c.x)
      + M.a.z * (M.b.x * M.c.y - M.b.y * M.c.x) ≠ 0 := hd
  ext <;> simp only [Mat3.inv, Mat3.mulVec, Mat3.det, dot] <;>
    field_simp <;> ring

/-! ## The unit cell

Modelled from the spec: the unit-cell implementation is not among the given
sources (only `tests/capi/cell.cpp` is), so the entity of spec §3 and the
operation table of spec §4.2 are modelled here.  A cell is its `Shape` tag
together with the lengths of the three lattice vectors and the three angles
between vector pairs, in degrees (α between b and c, β between a and c,
γ between a and b); the 3×3 lattice matrix is the derived attribute
`matrixOf`.  This parameterization realizes §4.2 directly: "set lengths
scales each lattice vector to the new length while preserving its direction,
leaving angles and shape unchanged", shape switches are pure relabelings,
and reading lengths or angles back after setting them is exact, as the tests
demand (`tests/capi/cell.cpp`, sections Constructors, Length, Angles). -/

/-- The closed shape enumeration of spec §3. -/
inductive CellShape
  | Orthorhombic
  | Triclinic
  | Infinite
deriving DecidableEq, Repr

/-- Modelled from the spec: the UnitCell entity of spec §3 — a shape tag plus
the lengths/angles parameterization of the lattice (angles in degrees). -/
structure UnitCell where
  shape : CellShape
  lengths : Vec3
  angles : Vec3

/-- Modelled from the spec: constructor from lengths alone, implying
`Orthorhombic` with angles 90/90/90 (spec §3 lifecycle, §4.2). -/
def UnitCell.ortho (L : Vec3) : UnitCell :=
  ⟨CellShape.Orthorhombic, L, ⟨90, 90, 90⟩⟩

/-- Modelled from the spec: constructor from lengths and angles, implying
`Triclinic` unconditionally (spec §3 lifecycle, §4.2). -/
def UnitCell.triclinic (L A : Vec3) : UnitCell :=
  ⟨CellShape.Triclinic, L, A⟩

/-- Degrees to radians. -/
def degToRad (θ : ℝ) : ℝ := θ * π / 180

/-- Modelled from the spec: the lattice matrix built from lengths and angles
(spec §4.2 "matrix built from lengths+angles"), rows being the lattice
vectors: a along the x axis, b in the xy plane. -/
def triclinicMatrix (L A : Vec3) : Mat3 :=
  let ca := Real.cos (degToRad A.x)
  let cb := Real.cos (degToRad A.y)
  let cg := Real.cos (degToRad A.z)
  let sg := Real.sin (degToRad A.z)
  let cy := (ca - cb * cg) / sg
  let cz := Real.sqrt (1 - cb ^ 2 - cy ^ 2)
  ⟨⟨L.x, 0, 0⟩,
   ⟨L.y * cg, L.y * sg, 0⟩,
   ⟨L.z * cb, L.z * cy, L.z * cz⟩⟩

/-- Modelled from the spec: the derived 3×3 lattice matrix of a cell
(spec §3): diagonal for `Orthorhombic`, built from lengths+angles for
`Triclinic`, the zero matrix for `Infinite`. -/
def matrixOf (cl : UnitCell) : Mat3 :=
  match cl.shape with
  | CellShape.Infinite => ⟨⟨0, 0, 0⟩, ⟨0, 0, 0⟩, ⟨0, 0, 0⟩⟩
  | CellShape.Orthorhombic =>
      ⟨⟨cl.lengths.x, 0, 0⟩, ⟨0, cl.lengths.y, 0⟩, ⟨0, 0, cl.lengths.z⟩⟩
  | CellShape.Triclinic => triclinicMatrix cl.lengths cl.angles

/-- Modelled from the spec: volume is the scalar triple product of the three
lattice vectors, i.e. the determinant of the lattice matrix (spec §3, §4.2);
it is 0 for `Infinite`. -/
def volume (cl : UnitCell) : ℝ := (matrixOf cl).det

/-- The lengths of the rows of a matrix: the derived "lengths of the three
lattice vectors" of spec §3 when applied to a cell's matrix. -/
def rowNorms (M : Mat3) : Vec3 :=
  ⟨Real.sqrt (dot M.a M.a), Real.sqrt (dot M.b M.b), Real.sqrt (dot M.c M.c)⟩

/-- A matrix is diagonal when all off-diagonal entries vanish. -/
def IsDiagonal (M : Mat3) : Prop :=
  M.a.y = 0 ∧ M.a.z = 0 ∧ M.b.x = 0 ∧ M.b.z = 0 ∧ M.c.x = 0 ∧ M.c.y = 0

/-- The failure kinds of the cell engine relevant here (spec §7 taxonomy). -/
inductive CellError
  | invalidOperation
deriving DecidableEq, Repr

/-- Modelled from the spec: setting lengths scales each lattice vector to the
new length preserving its direction, leaving angles and shape unchanged
(spec §4.2). -/
def UnitCell.setLengths (cl : UnitCell) (L : Vec3) : UnitCell :=
  { cl with lengths := L }

/-- Modelled from the spec: setting angles fails with `InvalidOperation`
unless the shape is `Triclinic` (spec §3 invariants, §4.2). -/
def UnitCell.setAngles (cl : UnitCell) (A : Vec3) : Except CellError UnitCell :=
  if cl.shape = CellShape.Triclinic then
    Except.ok { cl with angles := A }
  else
    Except.error CellError.invalidOperation

open scoped Classical in
/-- Modelled from the spec: switching to `Triclinic` or `Infinite` is a pure
relabeling and always succeeds; switching to `Orthorhombic` requires the
matrix to already be diagonal, otherwise it is an invalid-operation failure
(spec §4.2). -/
def UnitCell.setShape (cl : UnitCell) (sh : CellShape) : Except CellError UnitCell :=
  match sh with
  | CellShape.Orthorhombic =>
      if IsDiagonal (matrixOf cl) then
        Except.ok { cl with shape := sh }
      else
        Except.error CellError.invalidOperation
  | _ => Except.ok { cl with shape := sh }

/-- Componentwise fractional reduction: subtract from every fractional
coordinate its nearest integer, ties away from zero (spec §4.2). -/
def fracReduce (v : Vec3) : Vec3 := ⟨reduce v.x, reduce v.y, reduce v.z⟩

/-- Modelled from the spec: the wrap algorithm of spec §4.2 — convert to
fractional coordinates with the inverse lattice matrix, subtract the nearest
integer from each component (ties away from zero), convert back; identity for
`Infinite`; the per-axis fast path for `Orthorhombic`. -/
def UnitCell.wrap (cl : UnitCell) (v : Vec3) : Vec3 :=
  match cl.shape with
  | CellShape.Infinite => v
  | CellShape.Orthorhombic =>
      ⟨v.x - cl.lengths.x * roundAway (v.x / cl.lengths.x),
       v.y - cl.lengths.y * roundAway (v.y / cl.lengths.y),
       v.z - cl.lengths.z * roundAway (v.z / cl.lengths.z)⟩
  | CellShape.Triclinic =>
      let M := matrixOf cl
      M.mulVec (fracReduce (M.inv.mulVec v))

/-- The fractional coordinates of a Cartesian vector with respect to a cell's
lattice matrix (spec §4.2: left-multiplication by the inverse matrix). -/
def toFractional (cl : UnitCell) (v : Vec3) : Vec3 :=
  (matrixOf cl).inv.mulVec v

/-! ### Analysis of the wrap operation -/

theorem det_matrixOf_ortho (cl : UnitCell)
    (h : cl.shape = CellShape.Orthorhombic) :
    (matrixOf cl).det = cl.lengths.x * cl.lengths.y * cl.lengths.z := by
  simp only [matrixOf, h, Mat3.det]
  ring

theorem lengths_ne_zero_of_ortho (cl : UnitCell)
    (h : cl.shape = CellShape.Orthorhombic) (hd : (matrixOf cl).det ≠ 0) :
    cl.lengths.x ≠ 0 ∧ cl.lengths.y ≠ 0 ∧ cl.lengths.z ≠ 0 := by
  rw [det_matrixOf_ortho cl h] at hd
  refine ⟨?_, ?_, ?_⟩ <;> intro h0 <;> apply hd <;> rw [h0] <;> ring

theorem toFractional_ortho (cl : UnitCell) (w : Vec3)
    (h : cl.shape = CellShape.Orthorhombic) (hd : (matrixOf cl).det ≠ 0) :
    toFractional cl w =
      ⟨w.x / cl.lengths.x, w.y / cl.lengths.y, w.z / cl.lengths.z⟩ := by
  obtain ⟨hx, hy, hz⟩ := lengths_ne_zero_of_ortho cl h hd
  simp only [toFractional, matrixOf, h, Mat3.inv, Mat3.mulVec, Mat3.det, dot]
  ext <;> simp only <;> field_simp <;> try ring

theorem toFractional_wrap_ortho (cl : UnitCell) (v : Vec3)
    (h : cl.shape = CellShape.Orthorhombic) (hd : (matrixOf cl).det ≠ 0) :
    toFractional cl (cl.wrap v) =
      ⟨reduce (v.x / cl.lengths.x), reduce (v.y / cl.lengths.y),
       reduce (v.z / cl.lengths.z)⟩ := by
  obtain ⟨hx, hy, hz⟩ := lengths_ne_zero_of_ortho cl h hd
  rw [toFractional_ortho cl _ h hd]
  simp only [UnitCell.wrap, h, reduce]
  ext <;> simp only <;> field_simp

theorem toFractional_wrap_triclinic (cl : UnitCell) (v : Vec3)
    (h : cl.shape = CellShape.Triclinic) (hd : (matrixOf cl).det ≠ 0) :
    toFractional cl (cl.wrap v) = fracReduce ((matrixOf cl).inv.mulVec v) := by
  simp only [toFractional, UnitCell.wrap, h]
  exact Mat3.inv_mulVec_mulVec _ _ hd

theorem toFractional_wrap_mem (cl : UnitCell) (v : Vec3)
    (h : cl.shape ≠ CellShape.Infinite) (hd : (matrixOf cl).det ≠ 0) :
    -(1/2) ≤ (toFractional cl (cl.wrap v)).x ∧ (toFractional cl (cl.wrap v)).x ≤ 1/2 ∧
    -(1/2) ≤ (toFractional cl (cl.wrap v)).y ∧ (toFractional cl (cl.wrap v)).y ≤ 1/2 ∧
    -(1/2) ≤ (toFractional cl (cl.wrap v)).z ∧ (toFractional cl (cl.wrap v)).z ≤ 1/2 := by
  rcases hsh : cl.shape with _ | _ | _
  · rw [toFractional_wrap_ortho cl v hsh hd]
    exact ⟨neg_half_le_reduce _, reduce_le_half _, neg_half_le_reduce _,
      reduce_le_half _, neg_half_le_reduce _, reduce_le_half _⟩
  · rw [toFractional_wrap_triclinic cl v hsh hd]
    exact ⟨neg_half_le_reduce _, reduce_le_half _, neg_half_le_reduce _,
      reduce_le_half _, neg_half_le_reduce _, reduce_le_half _⟩
  · exact absurd hsh h

theorem wrap_wrap_eq_wrap (cl : UnitCell) (v : Vec3)
    (h : cl.shape ≠ CellShape.Infinite) (hd : (matrixOf cl).det ≠ 0)
    (tx : ¬ IsHalfInt (toFractional cl v).x)
    (ty : ¬ IsHalfInt (toFractional cl v).y)
    (tz : ¬ IsHalfInt (toFractional cl v).z) :
    cl.wrap (cl.wrap v) = cl.wrap v := by
  rcases hsh : cl.shape with _ | _ | _
  · obtain ⟨hx, hy, hz⟩ := lengths_ne_zero_of_ortho cl hsh hd
    rw [toFractional_ortho cl v hsh hd] at tx ty tz
    simp only at tx ty tz
    have key : ∀ (a L : ℝ), L ≠ 0 → ¬ IsHalfInt (a / L) →
        (a - L * roundAway (a / L)) -
          L * roundAway ((a - L * roundAway (a / L)) / L) =
          a - L * roundAway (a / L) := by
      intro a L hL ht
      have hq : (a - L * roundAway (a / L)) / L = reduce (a / L) := by
        unfold reduce
        field_simp
      rw [hq, roundAway_eq_zero _ (neg_half_lt_reduce _ ht) (reduce_lt_half _ ht)]
      push_cast
      ring
    simp only [UnitCell.wrap, hsh]
    exact Vec3.ext (key _ _ hx tx) (key _ _ hy ty) (key _ _ hz tz)
  · have hu : toFractional cl v = (matrixOf cl).inv.mulVec v := rfl
    rw [hu] at tx ty tz
    simp only [UnitCell.wrap, hsh]
    rw [Mat3.inv_mulVec_mulVec _ _ hd]
    have : fracReduce (fracReduce ((matrixOf cl).inv.mulVec v)) =
        fracReduce ((matrixOf cl).inv.mulVec v) := by
      unfold fracReduce
      exact Vec3.ext (reduce_reduce _ tx) (reduce_reduce _ ty) (reduce_reduce _ tz)
    rw [this]
  · exact absurd hsh h

/-! ## The C API status boundary

`chfl_strerror`, `chfl_last_error` and `chfl_clear_errors` are translated
from `src/capi/logging.cpp`.  The numeric values of the status constants come
from the public header (not among the given sources); only their distinctness
matters here.
-/

def CHFL_SUCCESS : ℤ := 0
def CHFL_MEMORY_ERROR : ℤ := 1
def CHFL_FILE_ERROR : ℤ := 2
def CHFL_FORMAT_ERROR : ℤ := 3
def CHFL_SELECTION_ERROR : ℤ := 4
def CHFL_GENERIC_ERROR : ℤ := 5
def CHFL_CXX_ERROR : ℤ := 6

/-- The fixed code→description map `ERROR_MESSAGES` of `src/capi/logging.cpp`
together with the `find`/fallback logic of `chfl_strerror`: a defined code
yields its fixed string, any other code yields the empty string. -/
def chfl_strerror (code : ℤ) : String :=
  if code = CHFL_SUCCESS then "operation was sucessfull"
  else if code = CHFL_MEMORY_ERROR then "memory allocation error."
  else if code = CHFL_FILE_ERROR then "system error while reading a file"
  else if code = CHFL_FORMAT_ERROR then "error while parsing a file"
  else if code = CHFL_SELECTION_ERROR then "error in selection parsing or evaluation"
  else if code = CHFL_GENERIC_ERROR then "unknown error from chemfiles library"
  else if code = CHFL_CXX_ERROR then "error from the C++ standard library"
  else ""

/-- `chfl_last_error` of `src/capi/logging.cpp`: return the current
`CAPI_LAST_ERROR` string.  The process-wide string is passed explicitly. -/
def chfl_last_error (lastError : String) : String := lastError

/-- `chfl_clear_errors` of `src/capi/logging.cpp`: reset `CAPI_LAST_ERROR`
to the empty string and return success. -/
def chfl_clear_errors (_lastError : String) : String × ℤ := ("", CHFL_SUCCESS)

/-- An intercepted internal failure: the status code it is classified into
and the formatted diagnostic message (spec §4.1). -/
structure Failure where
  code : ℤ
  message : String

/-- Modelled from the spec: the boundary shim of spec §4.1 (the
`CHFL_ERROR_CATCH` macro of `chemfiles/capi.hpp`, which is not among the
given sources).  A boundary-wrapped call either completes normally — success
code, last-error state untouched — or fails: its message becomes the new
last-error state and its status code is returned. -/
def boundaryCall (outcome : Option Failure) (lastError : String) : String × ℤ :=
  match outcome with
  | none => (lastError, CHFL_SUCCESS)
  | some f => (f.message, f.code)

/-- The last-error state left by a sequence of boundary-wrapped calls, each
described by its outcome (`none` = normal completion). -/
def runCalls (calls : List (Option Failure)) (lastError : String) : String :=
  calls.foldl (fun e oc => (boundaryCall oc e).1) lastError

/-- The most recent failure in a sequence of call outcomes, if any. -/
def lastFailure : List (Option Failure) → Option Failure
  | [] => none
  | oc :: cs =>
      match lastFailure cs with
      | some f => some f
      | none => oc

/-! ## The C API cell handles

Modelled from the spec: each successfully constructed cell handle is
exclusively owned by its caller (spec §4.3); handles index a store of cell
values, and the constructors allocate a fresh handle.  Allocation-failure
injection (`fail_next_allocation` in the tests) is modelled by a boolean
oracle passed to the constructors.
-/

/-- A store of allocated cells: a fresh-handle counter and the cell owned by
each live handle. -/
structure Store where
  next : ℕ
  mem : ℕ → Option UnitCell

/-- Allocate a fresh handle owning the given cell value. -/
def Store.alloc (s : Store) (cl : UnitCell) : Store × ℕ :=
  (⟨s.next + 1, fun k => if k = s.next then some cl else s.mem k⟩, s.next)

/-- Replace the cell owned by a handle. -/
def Store.update (s : Store) (h : ℕ) (cl : UnitCell) : Store :=
  ⟨s.next, fun k => if k = h then some cl else s.mem k⟩

/-- The process-wide state seen by the C API: the allocated cells and the
last-error string. -/
structure World where
  store : Store
  lastError : String

/-- The message recorded for an allocation failure (spec §7: Memory —
allocation failed). -/
def MEMORY_ERROR_MESSAGE : String := "memory allocation error."

/-- The four cell constructors of spec §3 (from lengths; from lengths and
angles; copy of an existing handle; from an external frame's current cell —
the frame collaborator is abstracted as the cell value it holds, spec §6). -/
inductive CtorSpec
  | ofLengths (L : Vec3)
  | ofLengthsAngles (L A : Vec3)
  | copyOf (h : ℕ)
  | fromFrame (frameCell : UnitCell)

/-- The cell value a constructor builds, when its inputs resolve
(a dangling handle given to copy resolves to nothing). -/
def ctorCell (w : World) : CtorSpec → Option UnitCell
  | CtorSpec.ofLengths L => some (UnitCell.ortho L)
  | CtorSpec.ofLengthsAngles L A => some (UnitCell.triclinic L A)
  | CtorSpec.copyOf h => w.store.mem h
  | CtorSpec.fromFrame cl => some cl

/-- Modelled from the spec: a boundary-wrapped cell constructor (spec §4.3).
When the allocation fails (`allocOk = false`), it returns a null handle,
leaves the store unchanged and records a Memory status and message; on
success it returns a fresh handle owning the fully built cell. -/
def runCtor (allocOk : Bool) (w : World) (spec : CtorSpec) :
    World × Option ℕ × ℤ :=
  match ctorCell w spec with
  | none => (⟨w.store, "invalid handle"⟩, none, CHFL_GENERIC_ERROR)
  | some cl =>
      if allocOk then
        let p := w.store.alloc cl
        (⟨p.1, w.lastError⟩, some p.2, CHFL_SUCCESS)
      else
        (⟨w.store, MEMORY_ERROR_MESSAGE⟩, none, CHFL_MEMORY_ERROR)

/-! ### The per-operation C entry points used by the cell tests

Modelled from the spec: each entry point takes an opaque handle, writes
results into caller-supplied storage (here: returns them), and returns a
status code (spec §4.3).  Reads of a dangling handle yield nothing; failing
setters leave the store unmodified (spec §7).
-/

def chfl_cell_copy (s : Store) (h : ℕ) : Store × Option ℕ :=
  match s.mem h with
  | none => (s, none)
  | some cl =>
      let p := s.alloc cl
      (p.1, some p.2)

def chfl_cell_lengths (s : Store) (h : ℕ) : Option Vec3 :=
  (s.mem h).map UnitCell.lengths

def chfl_cell_angles (s : Store) (h : ℕ) : Option Vec3 :=
  (s.mem h).map UnitCell.angles

def chfl_cell_volume (s : Store) (h : ℕ) : Option ℝ :=
  (s.mem h).map volume

def chfl_cell_matrix (s : Store) (h : ℕ) : Option Mat3 :=
  (s.mem h).map matrixOf

def chfl_cell_set_lengths (s : Store) (h : ℕ) (L : Vec3) : Store × ℤ :=
  match s.mem h with
  | none => (s, CHFL_GENERIC_ERROR)
  | some cl => (s.update h (cl.setLengths L), CHFL_SUCCESS)

def chfl_cell_set_angles (s : Store) (h : ℕ) (A : Vec3) : Store × ℤ :=
  match s.mem h with
  | none => (s, CHFL_GENERIC_ERROR)
  | some cl =>
      match cl.setAngles A with
      | Except.ok cl2 => (s.update h cl2, CHFL_SUCCESS)
      | Except.error _ => (s, CHFL_GENERIC_ERROR)

def chfl_cell_set_shape (s : Store) (h : ℕ) (sh : CellShape) : Store × ℤ :=
  match s.mem h with
  | none => (s, CHFL_GENERIC_ERROR)
  | some cl =>
      match cl.setShape sh with
      | Except.ok cl2 => (s.update h cl2, CHFL_SUCCESS)
      | Except.error _ => (s, CHFL_GENERIC_ERROR)

/-! ## Claim theorems -/

theorem lastFailure_none_cons (cs : List (Option Failure)) :
    lastFailure (none :: cs) = lastFailure cs := by
  show (match lastFailure cs with
        | some f => some f
        | none => none) = lastFailure cs
  cases lastFailure cs <;> rfl

/-- C6: after an explicit clear of the last-error state, retrieving the
last-error message returns the empty string; and across any sequence of
boundary-wrapped calls, the retrieved last-error message is the message of
the most recent failing call — each failure overwrites the previous message
and successful calls leave it untouched. -/
theorem C6_last_error :
    (∀ e : String, chfl_last_error (chfl_clear_errors e).1 = "") ∧
    (∀ (calls : List (Option Failure)) (e : String),
      chfl_last_error (runCalls calls e) =
        match lastFailure calls with
        | some f => f.message
        | none => e) := by
  constructor
  · intro e
    rfl
  · intro calls
    induction calls with
    | nil => intro e; rfl
    | cons oc cs ih =>
        intro e
        have step : runCalls (oc :: cs) e = runCalls cs ((boundaryCall oc e).1) := rfl
        rw [step]
        cases oc with
        | none =>
            rw [lastFailure_none_cons]
            exact ih e
        | some f =>
            have hb : (boundaryCall (some f) e).1 = f.message := rfl
            rw [hb]
            have hl2 : lastFailure (some f :: cs) =
                match lastFailure cs with
                | some g => some g
                | none => some f := rfl
            rw [hl2]
            cases hl : lastFailure cs with
            | none =>
                have := ih f.message
                rw [hl] at this
                simpa using this
            | some g =>
                have := ih f.message
                rw [hl] at this
                simpa using this

/-- C7: `chfl_strerror` is a pure lookup: each of the seven status codes has
a fixed, non-empty human-readable description, independent of any other
state. -/
theorem C7_strerror_fixed :
    chfl_strerror CHFL_SUCCESS = "operation was sucessfull" ∧
    chfl_strerror CHFL_MEMORY_ERROR = "memory allocation error." ∧
    chfl_strerror CHFL_FILE_ERROR = "system error while reading a file" ∧
    chfl_strerror CHFL_FORMAT_ERROR = "error while parsing a file" ∧
    chfl_strerror CHFL_SELECTION_ERROR = "error in selection parsing or evaluation" ∧
    chfl_strerror CHFL_GENERIC_ERROR = "unknown error from chemfiles library" ∧
    chfl_strerror CHFL_CXX_ERROR = "error from the C++ standard library" ∧
    chfl_strerror CHFL_SUCCESS ≠ "" ∧
    chfl_strerror CHFL_MEMORY_ERROR ≠ "" ∧
    chfl_strerror CHFL_FILE_ERROR ≠ "" ∧
    chfl_strerror CHFL_FORMAT_ERROR ≠ "" ∧
    chfl_strerror CHFL_SELECTION_ERROR ≠ "" ∧
    chfl_strerror CHFL_GENERIC_ERROR ≠ "" ∧
    chfl_strerror CHFL_CXX_ERROR ≠ "" := by
  refine ⟨?_, ?_, ?_, ?_, ?_, ?_, ?_, ?_, ?_, ?_, ?_, ?_, ?_, ?_⟩ <;> decide

/-- C10: for every integer code that is not one of the seven defined status
codes, `chfl_strerror` returns the empty string. -/
theorem C10_strerror_unknown (code : ℤ)
    (h0 : code ≠ CHFL_SUCCESS) (h1 : code ≠ CHFL_MEMORY_ERROR)
    (h2 : code ≠ CHFL_FILE_ERROR) (h3 : code ≠ CHFL_FORMAT_ERROR)
    (h4 : code ≠ CHFL_SELECTION_ERROR) (h5 : code ≠ CHFL_GENERIC_ERROR)
    (h6 : code ≠ CHFL_CXX_ERROR) :
    chfl_strerror code = "" := by
  unfold chfl_strerror
  rw [if_neg h0, if_neg h1, if_neg h2, if_neg h3, if_neg h4, if_neg h5, if_neg h6]

/-- Witness for C10: code 42 is none of the seven defined codes and is
described by the empty string. -/
theorem C10_strerror_unknown_witness :
    (42 : ℤ) ≠ CHFL_SUCCESS ∧ chfl_strerror 42 = "" :=
  ⟨by decide,
   C10_strerror_unknown 42 (by decide) (by decide) (by decide) (by decide)
     (by decide) (by decide) (by decide)⟩

/-- C8: for every cell constructor (from lengths, from lengths+angles, copy,
from frame) whose inputs resolve, when the allocation inside it fails the
constructor returns a null handle and records a Memory status and message,
and the store is unchanged — no partially initialized object is ever
reachable. -/
theorem C8_alloc_failure (w : World) (spec : CtorSpec)
    (h : (ctorCell w spec).isSome) :
    (runCtor false w spec).2.1 = none ∧
    (runCtor false w spec).1.store = w.store ∧
    (runCtor false w spec).1.lastError = MEMORY_ERROR_MESSAGE ∧
    (runCtor false w spec).2.2 = CHFL_MEMORY_ERROR := by
  obtain ⟨cl, hcl⟩ := Option.isSome_iff_exists.mp h
  simp [runCtor, hcl]

/-- Witness for C8: injecting an allocation failure into the from-lengths
constructor on an empty store. -/
theorem C8_alloc_failure_witness :
    (ctorCell ⟨⟨0, fun _ => none⟩, ""⟩ (CtorSpec.ofLengths ⟨2, 3, 4⟩)).isSome ∧
    (runCtor false ⟨⟨0, fun _ => none⟩, ""⟩ (CtorSpec.ofLengths ⟨2, 3, 4⟩)).2.1 = none ∧
    (runCtor false ⟨⟨0, fun _ => none⟩, ""⟩ (CtorSpec.ofLengths ⟨2, 3, 4⟩)).1.store =
      (⟨⟨0, fun _ => none⟩, ""⟩ : World).store ∧
    (runCtor false ⟨⟨0, fun _ => none⟩, ""⟩ (CtorSpec.ofLengths ⟨2, 3, 4⟩)).1.lastError =
      MEMORY_ERROR_MESSAGE ∧
    (runCtor false ⟨⟨0, fun _ => none⟩, ""⟩ (CtorSpec.ofLengths ⟨2, 3, 4⟩)).2.2 =
      CHFL_MEMORY_ERROR :=
  ⟨rfl, C8_alloc_failure ⟨⟨0, fun _ => none⟩, ""⟩ (CtorSpec.ofLengths ⟨2, 3, 4⟩) rfl⟩

/-- C4: copying a cell then mutating the original's lengths leaves the copy
entirely unchanged: the copy's volume and matrix are the same after the
mutation as before. -/
theorem C4_copy_independence (s : Store) (h : ℕ) (cl : UnitCell) (L : Vec3)
    (hmem : s.mem h = some cl) (hfresh : s.mem s.next = none) :
    (chfl_cell_copy s h).2 = some s.next ∧
    chfl_cell_volume ((chfl_cell_set_lengths (chfl_cell_copy s h).1 h L).1) s.next =
      chfl_cell_volume (chfl_cell_copy s h).1 s.next ∧
    chfl_cell_matrix ((chfl_cell_set_lengths (chfl_cell_copy s h).1 h L).1) s.next =
      chfl_cell_matrix (chfl_cell_copy s h).1 s.next ∧
    chfl_cell_volume ((chfl_cell_set_lengths (chfl_cell_copy s h).1 h L).1) s.next =
      some (volume cl) ∧
    chfl_cell_matrix ((chfl_cell_set_lengths (chfl_cell_copy s h).1 h L).1) s.next =
      some (matrixOf cl) := by
  have hne : h ≠ s.next := fun he => by
    rw [he, hfresh] at hmem
    exact Option.noConfusion hmem
  have hs1 : (chfl_cell_copy s h).1 = (s.alloc cl).1 := by
    simp [chfl_cell_copy, hmem]
  have h2 : (chfl_cell_copy s h).2 = some s.next := by
    simp [chfl_cell_copy, hmem, Store.alloc]
  have hcopymem : (chfl_cell_copy s h).1.mem s.next = some cl := by
    rw [hs1]
    simp [Store.alloc]
  have hcopymem_h : (chfl_cell_copy s h).1.mem h = some cl := by
    rw [hs1]
    simp [Store.alloc, hne, hmem]
  have hset : (chfl_cell_set_lengths (chfl_cell_copy s h).1 h L).1 =
      (chfl_cell_copy s h).1.update h ((cl.setLengths L)) := by
    simp [chfl_cell_set_lengths, hcopymem_h]
  have hafter : ((chfl_cell_set_lengths (chfl_cell_copy s h).1 h L).1).mem s.next =
      some cl := by
    rw [hset]
    simp [Store.update, (Ne.symm hne), hcopymem]
  refine ⟨h2, ?_, ?_, ?_, ?_⟩ <;>
    simp [chfl_cell_volume, chfl_cell_matrix, hafter, hcopymem]

/-- Witness for C4: the store of the test "copy" section — one cubic cell of
lengths (2,2,2) at handle 0; after copying and setting the original's
lengths to (3,3,3), the copy still has volume 8 and its original matrix. -/
theorem C4_copy_independence_witness :
    (⟨1, fun k => if k = 0 then some (UnitCell.ortho ⟨2, 2, 2⟩) else none⟩ :
        Store).mem 0 = some (UnitCell.ortho ⟨2, 2, 2⟩) ∧
    chfl_cell_volume
      ((chfl_cell_set_lengths
        (chfl_cell_copy
          ⟨1, fun k => if k = 0 then some (UnitCell.ortho ⟨2, 2, 2⟩) else none⟩ 0).1
        0 ⟨3, 3, 3⟩).1)
      1 = some (volume (UnitCell.ortho ⟨2, 2, 2⟩)) := by
  have base := C4_copy_independence
    ⟨1, fun k => if k = 0 then some (UnitCell.ortho ⟨2, 2, 2⟩) else none⟩
    0 (UnitCell.ortho ⟨2, 2, 2⟩) ⟨3, 3, 3⟩ (by simp) (by simp)
  exact ⟨by simp, base.2.2.2.1⟩

/-- C2: setting angles on an Orthorhombic cell fails with `InvalidOperation`
(a non-success status) and leaves the cell store unchanged; after switching
that cell's shape to Triclinic, the identical set-angles call succeeds and
reading the angles back yields exactly the values that were set. -/
theorem C2_set_angles (s : Store) (h : ℕ) (cl : UnitCell) (A : Vec3)
    (hmem : s.mem h = some cl) (hsh : cl.shape = CellShape.Orthorhombic) :
    cl.setAngles A = Except.error CellError.invalidOperation ∧
    (chfl_cell_set_angles s h A).2 ≠ CHFL_SUCCESS ∧
    (chfl_cell_set_angles s h A).1 = s ∧
    (chfl_cell_set_shape s h CellShape.Triclinic).2 = CHFL_SUCCESS ∧
    (chfl_cell_set_angles (chfl_cell_set_shape s h CellShape.Triclinic).1 h A).2 =
      CHFL_SUCCESS ∧
    chfl_cell_angles
      (chfl_cell_set_angles (chfl_cell_set_shape s h CellShape.Triclinic).1 h A).1
      h = some A := by
  have hfail : cl.setAngles A = Except.error CellError.invalidOperation := by
    simp [UnitCell.setAngles, hsh]
  have hshape : cl.setShape CellShape.Triclinic =
      Except.ok { cl with shape := CellShape.Triclinic } := rfl
  have hs1 : (chfl_cell_set_shape s h CellShape.Triclinic).1 =
      s.update h { cl with shape := CellShape.Triclinic } := by
    simp [chfl_cell_set_shape, hmem, hshape]
  have hmem1 : (chfl_cell_set_shape s h CellShape.Triclinic).1.mem h =
      some { cl with shape := CellShape.Triclinic } := by
    rw [hs1]
    simp [Store.update]
  have hok : UnitCell.setAngles { cl with shape := CellShape.Triclinic } A =
      Except.ok { cl with shape := CellShape.Triclinic, angles := A } := by
    simp [UnitCell.setAngles]
  refine ⟨hfail, ?_, ?_, ?_, ?_, ?_⟩
  · simp [chfl_cell_set_angles, hmem, hfail]
    decide
  · simp [chfl_cell_set_angles, hmem, hfail]
  · simp [chfl_cell_set_shape, hmem, hshape]
  · simp [chfl_cell_set_angles, hmem1, hok]
  · simp [chfl_cell_set_angles, hmem1, hok, chfl_cell_angles, Store.update]

/-- Witness for C2: the test's Angles section — an orthorhombic cell of
lengths (2,3,4) at handle 0, with angles (80,89,100) to set. -/
theorem C2_set_angles_witness :
    (⟨1, fun k => if k = 0 then some (UnitCell.ortho ⟨2, 3, 4⟩) else none⟩ :
        Store).mem 0 = some (UnitCell.ortho ⟨2, 3, 4⟩) ∧
    (UnitCell.ortho ⟨2, 3, 4⟩).shape = CellShape.Orthorhombic ∧
    chfl_cell_angles
      (chfl_cell_set_angles
        (chfl_cell_set_shape
          ⟨1, fun k => if k = 0 then some (UnitCell.ortho ⟨2, 3, 4⟩) else none⟩
          0 CellShape.Triclinic).1
        0 ⟨80, 89, 100⟩).1
      0 = some ⟨80, 89, 100⟩ := by
  have base := C2_set_angles
    ⟨1, fun k => if k = 0 then some (UnitCell.ortho ⟨2, 3, 4⟩) else none⟩
    0 (UnitCell.ortho ⟨2, 3, 4⟩) ⟨80, 89, 100⟩ (by simp) rfl
  exact ⟨by simp, rfl, base.2.2.2.2.2⟩

/-- C5: constructing an Orthorhombic cell from three non-negative lengths
and reading the lengths back yields them exactly, and the angles read back
as (90,90,90); moreover the lengths of the rows of the derived lattice
matrix coincide with the stored lengths. -/
theorem C5_ortho_roundtrip (L : Vec3) (hx : 0 ≤ L.x) (hy : 0 ≤ L.y)
    (hz : 0 ≤ L.z) :
    (UnitCell.ortho L).lengths = L ∧
    (UnitCell.ortho L).angles = ⟨90, 90, 90⟩ ∧
    rowNorms (matrixOf (UnitCell.ortho L)) = L := by
  refine ⟨rfl, rfl, ?_⟩
  have hmat : matrixOf (UnitCell.ortho L) =
      ⟨⟨L.x, 0, 0⟩, ⟨0, L.y, 0⟩, ⟨0, 0, L.z⟩⟩ := rfl
  rw [hmat]
  unfold rowNorms dot
  ext
  · rw [show L.x * L.x + 0 * 0 + 0 * 0 = L.x * L.x by ring]
    exact Real.sqrt_mul_self hx
  · rw [show 0 * 0 + L.y * L.y + 0 * 0 = L.y * L.y by ring]
    exact Real.sqrt_mul_self hy
  · rw [show 0 * 0 + 0 * 0 + L.z * L.z = L.z * L.z by ring]
    exact Real.sqrt_mul_self hz

/-- Witness for C5: the test's Constructors section, lengths (2,3,4). -/
theorem C5_ortho_roundtrip_witness :
    (0 : ℝ) ≤ 2 ∧
    (UnitCell.ortho ⟨2, 3, 4⟩).lengths = ⟨2, 3, 4⟩ ∧
    (UnitCell.ortho ⟨2, 3, 4⟩).angles = ⟨90, 90, 90⟩ ∧
    rowNorms (matrixOf (UnitCell.ortho ⟨2, 3, 4⟩)) = ⟨2, 3, 4⟩ :=
  ⟨by norm_num,
   C5_ortho_roundtrip ⟨2, 3, 4⟩ (by norm_num) (by norm_num) (by norm_num)⟩

/-- C3: for every three lengths, the triclinic constructor with angles
(90,90,90) yields a cell whose shape tag is Triclinic — never silently
coerced to Orthorhombic — and whose lattice matrix is diagonal. -/
theorem C3_triclinic_90 (L : Vec3) :
    (UnitCell.triclinic L ⟨90, 90, 90⟩).shape = CellShape.Triclinic ∧
    IsDiagonal (matrixOf (UnitCell.triclinic L ⟨90, 90, 90⟩)) := by
  refine ⟨rfl, ?_⟩
  have hrad : degToRad 90 = π / 2 := by
    unfold degToRad
    ring
  have hc : Real.cos (degToRad 90) = 0 := by
    rw [hrad]
    exact Real.cos_pi_div_two
  have hs : Real.sin (degToRad 90) = 1 := by
    rw [hrad]
    exact Real.sin_pi_div_two
  have hmat : matrixOf (UnitCell.triclinic L ⟨90, 90, 90⟩) =
      triclinicMatrix L ⟨90, 90, 90⟩ := rfl
  rw [hmat]
  unfold triclinicMatrix IsDiagonal
  simp [hc, hs]

/-- Counterexample to C1 as stated: on the Orthorhombic cell with lengths
(2,3,4), wrapping the vector (1,0,0) gives (-1,0,0), whose first fractional
coordinate is exactly -1/2 — outside the claimed interval (-0.5, 0.5].
(A fractional coordinate of 1/2 is a rounding tie; ties round away from
zero, so the result lands on -1/2, the endpoint the claim excludes.) -/
theorem C1_counterexample :
    ¬ (-(1/2) <
        (toFractional (UnitCell.ortho ⟨2, 3, 4⟩)
          ((UnitCell.ortho ⟨2, 3, 4⟩).wrap ⟨1, 0, 0⟩)).x) := by
  have hd : (matrixOf (UnitCell.ortho ⟨2, 3, 4⟩)).det ≠ 0 := by
    rw [det_matrixOf_ortho _ rfl]
    norm_num [UnitCell.ortho]
  rw [toFractional_wrap_ortho (UnitCell.ortho ⟨2, 3, 4⟩) ⟨1, 0, 0⟩ rfl hd]
  have r1 : roundAway ((1 : ℝ) / 2) = 1 :=
    roundAway_eq_of_nonneg _ 1 (by norm_num) (by norm_num) (by norm_num)
  show ¬ (-(1/2) < reduce ((1 : ℝ) / 2))
  unfold reduce
  rw [r1]
  norm_num

/-- C1 (amended): the Orthorhombic cell with lengths (2,3,4) wraps
(0.8, 1.7, -6) to (0.8, -1.3, 2); and for every non-Infinite, non-degenerate
cell the wrapped result, expressed in fractional coordinates, has each
component in the closed interval [-0.5, 0.5] (the endpoints are attained at
rounding ties, so the half-open interval of the original claim is widened to
the closed one). -/
theorem C1_wrap (cl : UnitCell) (v : Vec3)
    (h : cl.shape ≠ CellShape.Infinite) (hd : (matrixOf cl).det ≠ 0) :
    (UnitCell.ortho ⟨2, 3, 4⟩).wrap ⟨0.8, 1.7, -6⟩ = ⟨0.8, -1.3, 2⟩ ∧
    (-(1/2) ≤ (toFractional cl (cl.wrap v)).x ∧
      (toFractional cl (cl.wrap v)).x ≤ 1/2 ∧
      -(1/2) ≤ (toFractional cl (cl.wrap v)).y ∧
      (toFractional cl (cl.wrap v)).y ≤ 1/2 ∧
      -(1/2) ≤ (toFractional cl (cl.wrap v)).z ∧
      (toFractional cl (cl.wrap v)).z ≤ 1/2) := by
  refine ⟨?_, toFractional_wrap_mem cl v h hd⟩
  have r1 : roundAway ((0.8 : ℝ) / 2) = 0 :=
    roundAway_eq_of_nonneg _ 0 (by norm_num) (by norm_num) (by norm_num)
  have r2 : roundAway ((1.7 : ℝ) / 3) = 1 :=
    roundAway_eq_of_nonneg _ 1 (by norm_num) (by norm_num) (by norm_num)
  have r3 : roundAway ((-6 : ℝ) / 4) = -2 :=
    roundAway_eq_of_neg _ (-2) (by norm_num) (by norm_num) (by norm_num)
  show (⟨0.8 - 2 * roundAway ((0.8 : ℝ) / 2),
        1.7 - 3 * roundAway ((1.7 : ℝ) / 3),
        -6 - 4 * roundAway ((-6 : ℝ) / 4)⟩ : Vec3) = ⟨0.8, -1.3, 2⟩
  rw [r1, r2, r3]
  simp only [Vec3.mk.injEq]
  norm_num

/-- Witness for C1 (amended): the cell of the test's Wrap section, lengths
(2,3,4), wrapping (1,1,1). -/
theorem C1_wrap_witness :
    (UnitCell.ortho ⟨2, 3, 4⟩).shape ≠ CellShape.Infinite ∧
    (matrixOf (UnitCell.ortho ⟨2, 3, 4⟩)).det ≠ 0 ∧
    ((UnitCell.ortho ⟨2, 3, 4⟩).wrap ⟨0.8, 1.7, -6⟩ = ⟨0.8, -1.3, 2⟩ ∧
      (-(1/2) ≤ (toFractional (UnitCell.ortho ⟨2, 3, 4⟩)
          ((UnitCell.ortho ⟨2, 3, 4⟩).wrap ⟨1, 1, 1⟩)).x ∧
        (toFractional (UnitCell.ortho ⟨2, 3, 4⟩)
          ((UnitCell.ortho ⟨2, 3, 4⟩).wrap ⟨1, 1, 1⟩)).x ≤ 1/2 ∧
        -(1/2) ≤ (toFractional (UnitCell.ortho ⟨2, 3, 4⟩)
          ((UnitCell.ortho ⟨2, 3, 4⟩).wrap ⟨1, 1, 1⟩)).y ∧
        (toFractional (UnitCell.ortho ⟨2, 3, 4⟩)
          ((UnitCell.ortho ⟨2, 3, 4⟩).wrap ⟨1, 1, 1⟩)).y ≤ 1/2 ∧
        -(1/2) ≤ (toFractional (UnitCell.ortho ⟨2, 3, 4⟩)
          ((UnitCell.ortho ⟨2, 3, 4⟩).wrap ⟨1, 1, 1⟩)).z ∧
        (toFractional (UnitCell.ortho ⟨2, 3, 4⟩)
          ((UnitCell.ortho ⟨2, 3, 4⟩).wrap ⟨1, 1, 1⟩)).z ≤ 1/2)) := by
  have h : (UnitCell.ortho ⟨2, 3, 4⟩).shape ≠ CellShape.Infinite := by
    intro hcon
    exact CellShape.noConfusion hcon
  have hd : (matrixOf (UnitCell.ortho ⟨2, 3, 4⟩)).det ≠ 0 := by
    rw [det_matrixOf_ortho _ rfl]
    norm_num [UnitCell.ortho]
  exact ⟨h, hd, C1_wrap (UnitCell.ortho ⟨2, 3, 4⟩) ⟨1, 1, 1⟩ h hd⟩

/-- Counterexample to C9 as stated: on the Orthorhombic cell with lengths
(2,3,4), the vector (0,0,-6) wraps to (0,0,2) — a half-cell boundary — and
wrapping again gives (0,0,-2): the two results differ by 4, far more than
1e-10, so wrap is not idempotent at rounding ties. -/
theorem C9_counterexample :
    ¬ (|((UnitCell.ortho ⟨2, 3, 4⟩).wrap
          ((UnitCell.ortho ⟨2, 3, 4⟩).wrap ⟨0, 0, -6⟩)).z -
        ((UnitCell.ortho ⟨2, 3, 4⟩).wrap ⟨0, 0, -6⟩).z| < 1e-10) := by
  have r0a : roundAway ((0 : ℝ) / 2) = 0 :=
    roundAway_eq_of_nonneg _ 0 (by norm_num) (by norm_num) (by norm_num)
  have r0b : roundAway ((0 : ℝ) / 3) = 0 :=
    roundAway_eq_of_nonneg _ 0 (by norm_num) (by norm_num) (by norm_num)
  have r1 : roundAway ((-6 : ℝ) / 4) = -2 :=
    roundAway_eq_of_neg _ (-2) (by norm_num) (by norm_num) (by norm_num)
  have w1 : (UnitCell.ortho ⟨2, 3, 4⟩).wrap ⟨0, 0, -6⟩ = ⟨0, 0, 2⟩ := by
    show (⟨0 - 2 * roundAway ((0 : ℝ) / 2),
          0 - 3 * roundAway ((0 : ℝ) / 3),
          -6 - 4 * roundAway ((-6 : ℝ) / 4)⟩ : Vec3) = ⟨0, 0, 2⟩
    rw [r0a, r0b, r1]
    simp only [Vec3.mk.injEq]
    norm_num
  have r2 : roundAway ((2 : ℝ) / 4) = 1 :=
    roundAway_eq_of_nonneg _ 1 (by norm_num) (by norm_num) (by norm_num)
  have w2 : (UnitCell.ortho ⟨2, 3, 4⟩).wrap ⟨0, 0, 2⟩ = ⟨0, 0, -2⟩ := by
    show (⟨0 - 2 * roundAway ((0 : ℝ) / 2),
          0 - 3 * roundAway ((0 : ℝ) / 3),
          2 - 4 * roundAway ((2 : ℝ) / 4)⟩ : Vec3) = ⟨0, 0, -2⟩
    rw [r0a, r0b, r2]
    simp only [Vec3.mk.injEq]
    norm_num
  rw [w1, w2]
  norm_num

/-- C9 (amended): for every non-Infinite, non-degenerate cell and vector
none of whose fractional coordinates is a rounding tie (exactly halfway
between two integers), wrapping twice gives the same result as wrapping
once — each component differs by less than 1e-10 (indeed by exactly 0).
The tie exclusion is forced: at a tie the two results differ by a full
lattice vector. -/
theorem C9_wrap_idempotent (cl : UnitCell) (v : Vec3)
    (h : cl.shape ≠ CellShape.Infinite) (hd : (matrixOf cl).det ≠ 0)
    (tx : ¬ IsHalfInt (toFractional cl v).x)
    (ty : ¬ IsHalfInt (toFractional cl v).y)
    (tz : ¬ IsHalfInt (toFractional cl v).z) :
    |(cl.wrap (cl.wrap v)).x - (cl.wrap v).x| < 1e-10 ∧
    |(cl.wrap (cl.wrap v)).y - (cl.wrap v).y| < 1e-10 ∧
    |(cl.wrap (cl.wrap v)).z - (cl.wrap v).z| < 1e-10 := by
  rw [wrap_wrap_eq_wrap cl v h hd tx ty tz]
  norm_num

/-- Witness for C9 (amended): lengths (2,3,4), wrapping (0.8, 0.7, 1);
fractional coordinates (0.4, 7/30, 0.25) avoid all rounding ties. -/
theorem C9_wrap_idempotent_witness :
    (UnitCell.ortho ⟨2, 3, 4⟩).shape ≠ CellShape.Infinite ∧
    (¬ IsHalfInt (toFractional (UnitCell.ortho ⟨2, 3, 4⟩) ⟨0.8, 0.7, 1⟩).x) ∧
    (|((UnitCell.ortho ⟨2, 3, 4⟩).wrap
        ((UnitCell.ortho ⟨2, 3, 4⟩).wrap ⟨0.8, 0.7, 1⟩)).x -
      ((UnitCell.ortho ⟨2, 3, 4⟩).wrap ⟨0.8, 0.7, 1⟩).x| < 1e-10 ∧
     |((UnitCell.ortho ⟨2, 3, 4⟩).wrap
        ((UnitCell.ortho ⟨2, 3, 4⟩).wrap ⟨0.8, 0.7, 1⟩)).y -
      ((UnitCell.ortho ⟨2, 3, 4⟩).wrap ⟨0.8, 0.7, 1⟩).y| < 1e-10 ∧
     |((UnitCell.ortho ⟨2, 3, 4⟩).wrap
        ((UnitCell.ortho ⟨2, 3, 4⟩).wrap ⟨0.8, 0.7, 1⟩)).z -
      ((UnitCell.ortho ⟨2, 3, 4⟩).wrap ⟨0.8, 0.7, 1⟩).z| < 1e-10) := by
  have h : (UnitCell.ortho ⟨2, 3, 4⟩).shape ≠ CellShape.Infinite := by
    intro hcon
    exact CellShape.noConfusion hcon
  have hd : (matrixOf (UnitCell.ortho ⟨2, 3, 4⟩)).det ≠ 0 := by
    rw [det_matrixOf_ortho _ rfl]
    norm_num [UnitCell.ortho]
  have hfrac := toFractional_ortho (UnitCell.ortho ⟨2, 3, 4⟩) ⟨0.8, 0.7, 1⟩ rfl hd
  have tx : ¬ IsHalfInt (toFractional (UnitCell.ortho ⟨2, 3, 4⟩) ⟨0.8, 0.7, 1⟩).x := by
    rw [hfrac]
    simp only [UnitCell.ortho]
    exact not_isHalfInt _ (-1) (by norm_num) (by norm_num)
  have ty : ¬ IsHalfInt (toFractional (UnitCell.ortho ⟨2, 3, 4⟩) ⟨0.8, 0.7, 1⟩).y := by
    rw [hfrac]
    simp only [UnitCell.ortho]
    exact not_isHalfInt _ (-1) (by norm_num) (by norm_num)
  have tz : ¬ IsHalfInt (toFractional (UnitCell.ortho ⟨2, 3, 4⟩) ⟨0.8, 0.7, 1⟩).z := by
    rw [hfrac]
    simp only [UnitCell.ortho]
    exact not_isHalfInt _ (-1) (by norm_num) (by norm_num)
  exact ⟨h, tx,
    C9_wrap_idempotent (UnitCell.ortho ⟨2, 3, 4⟩) ⟨0.8, 0.7, 1⟩ h hd tx ty tz⟩

end
